import Mathlib

/-!
Verification of the GLBB motion core (`formula.rs`, `now.rs`,
`horizontal_state.rs`, `vertical_state.rs`) against its specification.

Modelling conventions:
* `f64`/`f32` values are modelled as exact rationals (`ℚ`).  The claims under
  study are about the algorithmic structure of the motion core (control flow,
  bounce handling, settle thresholds, recomputed durations), not about IEEE-754
  rounding, and the concrete inputs used below behave identically in exact
  arithmetic.  Note that in Lean `q / 0 = 0`, whereas Rust `f64` division by
  zero yields an infinity; theorems therefore carry a nonzero-deceleration
  hypothesis wherever the divisor could be zero.
* `std::time::Instant` is modelled by the rational timestamp stored in the
  `start` field; `Instant::elapsed` at wall-clock time `now` is
  `max (now - start) 0` (a monotonic clock never shows negative elapsed time).
  A single `advance` call reads the clock twice in the Rust source; the model
  uses one `now` for both reads (the calls are adjacent in the same frame).
* `std::time::Duration` is a nonnegative number of seconds.
  `Duration::from_secs_f64` panics when its argument is negative or exceeds
  `Duration::MAX`; `fromSecsF64` returns `none` exactly on that panic domain.
* The `while` loops inside the two `mv` methods become the recursive functions
  `hLoop` and `vLoop`.  Their `steps` (and `flips`) components are ghost
  instrumentation recording the `move_by` value consumed by each iteration
  (and, for the horizontal loop, how many times the direction sign flipped);
  the Rust loop is the projection that ignores these ghost fields.
-/

namespace GLBB

/-- `formula.rs`: `calculate_distance(velocity, acceleration, time)`. -/
def calculate_distance (velocity acceleration time : ℚ) : ℚ :=
  velocity * time + (1/2) * acceleration * (time * time)

/-- `formula.rs`: `calculate_velocity(velocity, acceleration, time)`. -/
def calculate_velocity (velocity acceleration time : ℚ) : ℚ :=
  velocity + acceleration * time

/-- `now.rs`: `Now::elapsed` at wall-clock instant `now`, for a `Now` whose
reference instant is `start`.  `Instant::elapsed` never returns a negative
duration. -/
def elapsed (now start : ℚ) : ℚ := max (now - start) 0

/-- `Duration::MAX` in seconds: `u64::MAX` whole seconds plus `999_999_999`
nanoseconds. -/
def durationMaxSecs : ℚ := (2 ^ 64 - 1) + 999999999 / 1000000000

/-- `Duration::from_secs_f64`: panics (modelled as `none`) when the argument
is negative or exceeds `Duration::MAX`.  (The NaN/infinity panic cases of the
Rust function have no rational counterpart; every `ℚ` is finite.) -/
def fromSecsF64 (secs : ℚ) : Option ℚ :=
  if 0 ≤ secs ∧ secs ≤ durationMaxSecs then some secs else none

/-- `horizontal_state.rs`: `HorizontalState`.  The serde-skipped `start`
clock is the stored reference instant; `duration` is `planned_duration` in
seconds. -/
structure HorizontalState where
  play : Option Int
  start : ℚ
  duration : ℚ
  velocity : ℚ
  acceleration : ℚ
deriving DecidableEq, Repr

/-- `HorizontalState::is_play`. -/
def HorizontalState.is_play (s : HorizontalState) : Bool := s.play.isSome

/-- `HorizontalState::stop`. -/
def HorizontalState.stop (s : HorizontalState) : HorizontalState :=
  { s with play := none }

/-- `HorizontalState::play(direction)` (the private method; renamed because
`play` is already the field name): resets the clock to `now`, stores the
direction and recomputes the planned duration `|velocity| / |acceleration|`.
This total model puts the quotient straight into `duration`; the panic
behaviour of the `Duration::from_secs_f64` call it performs is captured
separately by `HorizontalState.startPlayChecked`. -/
def HorizontalState.startPlay (s : HorizontalState) (direction : Int) (now : ℚ) :
    HorizontalState :=
  { s with start := now, play := some direction,
           duration := |s.velocity| / |s.acceleration| }

/-- `HorizontalState::play(direction)` with the `Duration::from_secs_f64`
panic made explicit: `none` models the panic. -/
def HorizontalState.startPlayChecked (s : HorizontalState) (direction : Int)
    (now : ℚ) : Option HorizontalState :=
  (fromSecsF64 (|s.velocity| / |s.acceleration|)).map fun d =>
    { s with start := now, play := some direction, duration := d }

/-- `HorizontalState::play_left`. -/
def HorizontalState.play_left (s : HorizontalState) (now : ℚ) : HorizontalState :=
  s.startPlay (-1) now

/-- `HorizontalState::play_right`. -/
def HorizontalState.play_right (s : HorizontalState) (now : ℚ) : HorizontalState :=
  s.startPlay 1 now

/-- `HorizontalState::play_right`, panic-aware variant. -/
def HorizontalState.play_rightChecked (s : HorizontalState) (now : ℚ) :
    Option HorizontalState :=
  s.startPlayChecked 1 now

/-- `HorizontalState::distance_at`. -/
def HorizontalState.distance_at (s : HorizontalState) (time : ℚ) : ℚ :=
  calculate_distance s.velocity (-s.acceleration) time

/-- `HorizontalState::velocity_at`. -/
def HorizontalState.velocity_at (s : HorizontalState) (time : ℚ) : ℚ :=
  calculate_velocity s.velocity (-s.acceleration) time

/-- Result of the `while distance > 0.0` loop in `HorizontalState::mv`:
final position, final (possibly sign-flipped) direction, plus ghost
instrumentation: the list of `move_by` values consumed and the number of
direction flips. -/
structure HLoopResult where
  pos : ℚ
  direction : Int
  steps : List ℚ
  flips : Nat
deriving DecidableEq, Repr

/-- The `while distance > 0.0` loop of `HorizontalState::mv`: consume
`distance` in chunks `move_by = min distance 5`, moving `pos` by
`move_by * direction`; after each chunk, if `pos` left the inclusive range
`[lo, hi]`, negate `direction`. -/
def hLoop (distance pos : ℚ) (direction : Int) (lo hi : ℚ) : HLoopResult :=
  if h : 0 < distance then
    let move_by := min distance 5
    let pos1 := pos + move_by * (direction : ℚ)
    if lo ≤ pos1 ∧ pos1 ≤ hi then
      let r := hLoop (distance - move_by) pos1 direction lo hi
      ⟨r.pos, r.direction, move_by :: r.steps, r.flips⟩
    else
      let r := hLoop (distance - move_by) pos1 (-direction) lo hi
      ⟨r.pos, r.direction, move_by :: r.steps, r.flips + 1⟩
  else
    ⟨pos, direction, [], 0⟩
termination_by (⌈distance / 5⌉).toNat
decreasing_by
  all_goals
    rcases le_total distance 5 with h5 | h5
    · rw [min_eq_left h5, sub_self]
      have h1 : (0 : ℤ) < ⌈distance / 5⌉ := Int.ceil_pos.mpr (by positivity)
      have h2 : ⌈(0 : ℚ) / 5⌉ = 0 := by norm_num
      omega
    · rw [min_eq_right h5]
      have h1 : ⌈(distance - 5) / 5⌉ = ⌈distance / 5⌉ - 1 := by
        have : (distance - 5) / 5 = distance / 5 - ((1 : ℤ) : ℚ) := by
          push_cast; ring
        rw [this, Int.ceil_sub_int]
      have h2 : (0 : ℤ) < ⌈distance / 5⌉ := Int.ceil_pos.mpr (by positivity)
      omega

/-- `HorizontalState::mv(pos, range)` at wall-clock time `now`, with the
caller-owned position and the inclusive range passed (and the new position
returned) explicitly.  Faithful to the source order: the stored `velocity`
is updated *before* `distance_at` is evaluated, so the displacement uses the
updated velocity. -/
def HorizontalState.mv (s : HorizontalState) (now pos lo hi : ℚ) :
    HorizontalState × ℚ :=
  match s.play with
  | none => (s, pos)
  | some direction =>
    let time := min (elapsed now s.start) s.duration
    let s1 : HorizontalState := { s with velocity := s.velocity_at time }
    let distance := s1.distance_at time
    let r := hLoop distance pos direction lo hi
    let s2 : HorizontalState := { s1 with play := some r.direction }
    if elapsed now s.start < s.duration then
      (s2.startPlay r.direction now, r.pos)
    else
      (s2.stop, r.pos)

/-- `vertical_state.rs`: `VerticalState`.  The serde-skipped `start` clock is
the stored reference instant. -/
structure VerticalState where
  play : Bool
  start : ℚ
  direction : ℚ
  accel : ℚ
  velocity : ℚ
deriving DecidableEq, Repr

/-- `VerticalState::default()` created at wall-clock time `now` (all numeric
fields zero, `play = false`; the clock initializes to "now"). -/
def VerticalState.init (now : ℚ) : VerticalState :=
  { play := false, start := now, direction := 0, accel := 0, velocity := 0 }

/-- `VerticalState::fall` at wall-clock time `now`. -/
def VerticalState.fall (s : VerticalState) (now : ℚ) : VerticalState :=
  { s with accel := 800, velocity := 0, play := true, direction := -1,
           start := now }

/-- `VerticalState::is_drop`: `direction.is_sign_negative()`.  (`ℚ` has no
negative zero; the reachable `direction` values are `0`, `-1` and `1`, on
which `is_sign_negative` agrees with `< 0`.) -/
def VerticalState.is_drop (s : VerticalState) : Bool := decide (s.direction < 0)

/-- `VerticalState::stop`. -/
def VerticalState.stop (s : VerticalState) : VerticalState :=
  { s with play := false }

/-- `VerticalState::is_play`. -/
def VerticalState.is_play (s : VerticalState) : Bool := s.play

/-- Result of the `while distance != 0.0` loop in `VerticalState::mv`:
final position, direction and velocity (the latter two mutated only by a
bounce), plus the ghost list of `move_by` values consumed. -/
structure VLoopResult where
  pos : ℚ
  direction : ℚ
  velocity : ℚ
  steps : List ℚ
deriving DecidableEq, Repr

/-- The `while distance != 0.0` loop of `VerticalState::mv`: consume
`distance` in chunks `move_by = min distance 5`, moving `pos` by
`-(move_by * direction)`; when a chunk brings `pos` to `≤ 0`, bounce
(negate `direction`, scale `velocity` by `0.8`) and break out immediately,
discarding the rest of `distance`. -/
def vLoop (distance pos direction velocity : ℚ) : VLoopResult :=
  if h : distance ≠ 0 then
    let move_by := min distance 5
    let pos1 := pos - move_by * direction
    if pos1 ≤ 0 then
      ⟨pos1, direction * (-1), velocity * (8/10), [move_by]⟩
    else
      let r := vLoop (distance - move_by) pos1 direction velocity
      ⟨r.pos, r.direction, r.velocity, move_by :: r.steps⟩
  else
    ⟨pos, direction, velocity, []⟩
termination_by (⌈|distance| / 5⌉).toNat
decreasing_by
  rcases le_total distance 5 with h5 | h5
  · rw [min_eq_left h5, sub_self]
    have h1 : (0 : ℤ) < ⌈|distance| / 5⌉ :=
      Int.ceil_pos.mpr (div_pos (abs_pos.mpr h) (by norm_num))
    have h2 : ⌈|(0 : ℚ)| / 5⌉ = 0 := by norm_num
    omega
  · rw [min_eq_right h5]
    have h0 : (0 : ℚ) < distance := lt_of_lt_of_le (by norm_num) h5
    have ha : |distance| = distance := abs_of_pos h0
    have ha5 : |distance - 5| = distance - 5 := abs_of_nonneg (by linarith)
    have h1 : ⌈(distance - 5) / 5⌉ = ⌈distance / 5⌉ - 1 := by
      have e : (distance - 5) / 5 = distance / 5 - ((1 : ℤ) : ℚ) := by
        push_cast; ring
      rw [e, Int.ceil_sub_int]
    have h2 : (0 : ℤ) < ⌈distance / 5⌉ := Int.ceil_pos.mpr (by positivity)
    rw [ha5, ha, h1]
    omega

/-- `VerticalState::mv(pos, _)` at wall-clock time `now`, with the
caller-owned position passed (and returned) explicitly.  Faithful to the
source order: the stored `velocity` is updated first and the displacement is
computed from the *updated* velocity; the clock is re-based to `now` on every
call; finally, if both the frame displacement and the resulting position are
within `0.5` in absolute value, `play` is cleared. -/
def VerticalState.mv (s : VerticalState) (now pos : ℚ) : VerticalState × ℚ :=
  if s.play then
    let time := elapsed now s.start
    let velocity1 := calculate_velocity s.velocity (s.accel * s.direction) time
    let distance := calculate_distance velocity1 (s.accel * s.direction) time
    let r := vLoop distance pos s.direction velocity1
    let s1 : VerticalState :=
      { s with velocity := r.velocity, direction := r.direction, start := now }
    if |distance| ≤ 1/2 ∧ |r.pos| ≤ 1/2 then
      ({ s1 with play := false }, r.pos)
    else
      (s1, r.pos)
  else
    (s, pos)

/-- States of `VerticalState`, paired with the caller-owned position,
reachable from a freshly constructed state by any sequence of `fall`,
`stop` and `mv` calls (at arbitrary wall-clock times). -/
inductive VReach : VerticalState → ℚ → Prop where
  | init (now pos : ℚ) : VReach (VerticalState.init now) pos
  | fall (s : VerticalState) (p now : ℚ) : VReach s p → VReach (s.fall now) p
  | stop (s : VerticalState) (p : ℚ) : VReach s p → VReach s.stop p
  | mv (s : VerticalState) (p now : ℚ) :
      VReach s p → VReach (s.mv now p).1 (s.mv now p).2

/-! ### Unfolding lemmas for the two step loops -/

theorem hLoop_base (distance pos : ℚ) (direction : Int) (lo hi : ℚ)
    (h : ¬ 0 < distance) :
    hLoop distance pos direction lo hi = ⟨pos, direction, [], 0⟩ := by
  rw [hLoop]
  simp [h]

theorem hLoop_step_in (distance pos : ℚ) (direction : Int)
    (lo hi move_by distance1 pos1 : ℚ) (r : HLoopResult)
    (h : 0 < distance) (hm : min distance 5 = move_by)
    (hd : distance - move_by = distance1)
    (hp : pos + move_by * (direction : ℚ) = pos1)
    (hin : lo ≤ pos1 ∧ pos1 ≤ hi)
    (hr : hLoop distance1 pos1 direction lo hi = r) :
    hLoop distance pos direction lo hi =
      ⟨r.pos, r.direction, move_by :: r.steps, r.flips⟩ := by
  rw [hLoop]
  simp only [dif_pos h, hm, hd, hp, if_pos hin, hr]

theorem hLoop_step_out (distance pos : ℚ) (direction : Int)
    (lo hi move_by distance1 pos1 : ℚ) (r : HLoopResult)
    (h : 0 < distance) (hm : min distance 5 = move_by)
    (hd : distance - move_by = distance1)
    (hp : pos + move_by * (direction : ℚ) = pos1)
    (hout : ¬ (lo ≤ pos1 ∧ pos1 ≤ hi))
    (hr : hLoop distance1 pos1 (-direction) lo hi = r) :
    hLoop distance pos direction lo hi =
      ⟨r.pos, r.direction, move_by :: r.steps, r.flips + 1⟩ := by
  rw [hLoop]
  simp only [dif_pos h, hm, hd, hp, if_neg hout, hr]

theorem vLoop_base (pos direction velocity : ℚ) :
    vLoop 0 pos direction velocity = ⟨pos, direction, velocity, []⟩ := by
  rw [vLoop]
  simp

theorem vLoop_bounce (distance pos direction velocity move_by pos1 : ℚ)
    (h : distance ≠ 0) (hm : min distance 5 = move_by)
    (hp : pos - move_by * direction = pos1) (hb : pos1 ≤ 0) :
    vLoop distance pos direction velocity =
      ⟨pos1, direction * (-1), velocity * (8/10), [move_by]⟩ := by
  rw [vLoop]
  simp only [dif_pos h, hm, hp, if_pos hb]

theorem vLoop_step (distance pos direction velocity move_by distance1 pos1 : ℚ)
    (r : VLoopResult)
    (h : distance ≠ 0) (hm : min distance 5 = move_by)
    (hd : distance - move_by = distance1)
    (hp : pos - move_by * direction = pos1) (hnb : ¬ pos1 ≤ 0)
    (hr : vLoop distance1 pos1 direction velocity = r) :
    vLoop distance pos direction velocity =
      ⟨r.pos, r.direction, r.velocity, move_by :: r.steps⟩ := by
  rw [vLoop]
  simp only [dif_pos h, hm, hd, hp, if_neg hnb, hr]

/-! ### Claim theorems -/

/-- Claim C1: `play_left()` / `play_right()` reset the clock to the current
instant, set the direction to `Some(-1)` / `Some(+1)` respectively, and set
`planned_duration` to `|velocity| / |deceleration|` seconds; in particular
with `velocity = 10` and `deceleration = 2` the planned duration is `5`
seconds.  (The hypothesis `acceleration ≠ 0` marks the domain on which the
rational model of the duration quotient agrees with `f64` division; with a
zero deceleration the Rust code divides to infinity and panics in
`Duration::from_secs_f64`.) -/
theorem horizontal_play_spec (s : HorizontalState) (now : ℚ)
    (h : s.acceleration ≠ 0) :
    s.play_left now =
      { s with start := now, play := some (-1),
               duration := |s.velocity| / |s.acceleration| }
    ∧ s.play_right now =
      { s with start := now, play := some 1,
               duration := |s.velocity| / |s.acceleration| }
    ∧ ((⟨none, 0, 0, 10, 2⟩ : HorizontalState).play_right now).duration = 5 := by
  refine ⟨rfl, rfl, ?_⟩
  norm_num [HorizontalState.play_right, HorizontalState.startPlay]

/-- Witness for `horizontal_play_spec`: the `velocity = 10`,
`deceleration = 2` start named by the claim. -/
theorem horizontal_play_spec_witness :
    ((⟨none, 0, 0, 10, 2⟩ : HorizontalState).play_right 3).duration = 5
    ∧ ((⟨none, 0, 0, 10, 2⟩ : HorizontalState).play_right 3).play = some 1
    ∧ ((⟨none, 0, 0, 10, 2⟩ : HorizontalState).play_right 3).start = 3 := by
  obtain ⟨-, h2, h3⟩ := horizontal_play_spec ⟨none, 0, 0, 10, 2⟩ 3 (by norm_num)
  exact ⟨h3, by rw [h2], by rw [h2]⟩

/-- Claim C10: `stop()` only clears the playing flag, for both motions:
every other field (velocity, acceleration/accel, vertical direction,
planned duration, clock reference) is preserved, the caller's position is
not an input of `stop` at all, and `stop` is idempotent. -/
theorem stop_only_clears_play :
    (∀ s : HorizontalState,
      s.stop.play = none ∧ s.stop.velocity = s.velocity
      ∧ s.stop.acceleration = s.acceleration ∧ s.stop.start = s.start
      ∧ s.stop.duration = s.duration ∧ s.stop.stop = s.stop)
    ∧ (∀ s : VerticalState,
      s.stop.play = false ∧ s.stop.velocity = s.velocity
      ∧ s.stop.accel = s.accel ∧ s.stop.direction = s.direction
      ∧ s.stop.start = s.start ∧ s.stop.stop = s.stop) :=
  ⟨fun _ => ⟨rfl, rfl, rfl, rfl, rfl, rfl⟩,
   fun _ => ⟨rfl, rfl, rfl, rfl, rfl, rfl⟩⟩

/-- Claim C8 counterexample: with the finite inputs `velocity = 10^30`,
`deceleration = 1/1000` (nonzero), `play_right()` computes the planned
duration `10^33` seconds, which exceeds `Duration::MAX`, so the
`Duration::from_secs_f64` call inside panics (modelled as `none`). -/
theorem no_panic_cex :
    (⟨none, 0, 0, 10 ^ 30, 1 / 1000⟩ : HorizontalState).play_rightChecked 0 =
      none := by
  have h1 : |(10 : ℚ) ^ 30| / |1 / 1000| = 10 ^ 33 := by
    rw [abs_of_pos (by norm_num), abs_of_pos (by norm_num)]
    norm_num
  simp only [HorizontalState.play_rightChecked, HorizontalState.startPlayChecked,
    fromSecsF64, h1]
  rw [if_neg]
  · rfl
  · rintro ⟨-, h2⟩
    norm_num [durationMaxSecs] at h2

/-- Claim C8 amended: `play_left`/`play_right` (and the identical re-arm in
`mv`) do not panic provided the computed duration `|velocity| / |deceleration|`
does not exceed `Duration::MAX` (≈ 1.8 × 10^19 seconds); within that bound the
checked operation succeeds and agrees with the total model.  (The vertical
motion and `stop` contain no panicking construct and are modelled by total
functions.) -/
theorem no_panic_amended (s : HorizontalState) (d : Int) (now : ℚ)
    (h : |s.velocity| / |s.acceleration| ≤ durationMaxSecs) :
    s.startPlayChecked d now = some (s.startPlay d now) := by
  unfold HorizontalState.startPlayChecked fromSecsF64
  rw [if_pos ⟨div_nonneg (abs_nonneg _) (abs_nonneg _), h⟩]
  rfl

/-- Witness for `no_panic_amended` at `velocity = 10`, `deceleration = 2`. -/
theorem no_panic_amended_witness :
    (⟨none, 0, 0, 10, 2⟩ : HorizontalState).startPlayChecked 1 0 =
      some ((⟨none, 0, 0, 10, 2⟩ : HorizontalState).startPlay 1 0) :=
  no_panic_amended ⟨none, 0, 0, 10, 2⟩ 1 0 (by norm_num [durationMaxSecs])

/-- Claim C2: on a moving horizontal state, `advance` evaluates the stored
velocity and the frame displacement at `t = min(elapsed, planned_duration)`;
afterwards `is_moving()` is false iff the elapsed time since the last
(re)start is `≥ planned_duration`; and when `elapsed < planned_duration` the
motion is re-armed: the clock is reset to now and `planned_duration` is
recomputed as `|velocity| / |deceleration|` from the updated velocity. -/
theorem horizontal_mv_spec (s : HorizontalState) (d : Int) (now pos lo hi : ℚ)
    (h : s.play = some d) :
    ((s.mv now pos lo hi).1.is_play = false ↔ s.duration ≤ elapsed now s.start)
    ∧ (s.mv now pos lo hi).1.velocity =
        s.velocity_at (min (elapsed now s.start) s.duration)
    ∧ (s.mv now pos lo hi).2 =
        (hLoop (calculate_distance
            (s.velocity_at (min (elapsed now s.start) s.duration))
            (-s.acceleration) (min (elapsed now s.start) s.duration))
          pos d lo hi).pos
    ∧ (elapsed now s.start < s.duration →
        (s.mv now pos lo hi).1.start = now
        ∧ (s.mv now pos lo hi).1.duration =
            |s.velocity_at (min (elapsed now s.start) s.duration)| /
              |s.acceleration|) := by
  simp only [HorizontalState.mv, h, HorizontalState.distance_at,
    HorizontalState.velocity_at, calculate_distance, calculate_velocity]
  by_cases hlt : elapsed now s.start < s.duration
  · simp [if_pos hlt, HorizontalState.is_play, HorizontalState.startPlay,
      not_le.mpr hlt, hlt]
  · simp [if_neg hlt, HorizontalState.is_play, HorizontalState.stop,
      not_lt.mp hlt, hlt]

/-- Witness for `horizontal_mv_spec`: `velocity = 10`, `deceleration = 2`,
`planned_duration = 5`, advanced after one second: still moving, velocity
updated to `8`, re-armed with `planned_duration = 4` and clock reset. -/
theorem horizontal_mv_spec_witness :
    ((⟨some 1, 0, 5, 10, 2⟩ : HorizontalState).mv 1 0 0 1000).1.is_play = true
    ∧ ((⟨some 1, 0, 5, 10, 2⟩ : HorizontalState).mv 1 0 0 1000).1.velocity = 8
    ∧ ((⟨some 1, 0, 5, 10, 2⟩ : HorizontalState).mv 1 0 0 1000).1.duration = 4
    ∧ ((⟨some 1, 0, 5, 10, 2⟩ : HorizontalState).mv 1 0 0 1000).1.start = 1 := by
  obtain ⟨h1, h2, -, h4⟩ :=
    horizontal_mv_spec ⟨some 1, 0, 5, 10, 2⟩ 1 1 0 0 1000 rfl
  norm_num [elapsed, HorizontalState.velocity_at, calculate_velocity]
    at h1 h2 h4
  refine ⟨?_, h2, by norm_num [h4.2], h4.1⟩
  cases hb : ((⟨some 1, 0, 5, 10, 2⟩ : HorizontalState).mv 1 0 0 1000).1.is_play
  · rw [hb] at h1
    exact absurd h1 (by norm_num)
  · rfl

/-- Concrete run of the horizontal step loop in a narrow bound `[0, 4]`:
a displacement of `18.5` starting at position `1` going right bounces three
times within the single loop run (at `6`, at `-4` and at `-1/2`), consuming
steps `5, 5, 5, 3.5`. -/
theorem hLoop_narrow_demo :
    hLoop (37/2) 1 1 0 4 = ⟨-1/2, -1, [5, 5, 5, 7/2], 3⟩ := by
  have e0 := hLoop_base 0 (-1/2) (-1) 0 4 (by norm_num)
  have e1 := hLoop_step_out (7/2) (-4) 1 0 4 (7/2) 0 (-1/2) _
    (by norm_num) (by norm_num) (by norm_num) (by norm_num) (by norm_num) e0
  have e2 := hLoop_step_out (17/2) 1 (-1) 0 4 5 (7/2) (-4) _
    (by norm_num) (by norm_num) (by norm_num) (by norm_num) (by norm_num) e1
  have e3 := hLoop_step_in (27/2) 6 (-1) 0 4 5 (17/2) 1 _
    (by norm_num) (by norm_num) (by norm_num) (by norm_num) (by norm_num) e2
  have e4 := hLoop_step_out (37/2) 1 1 0 4 5 (27/2) 6 _
    (by norm_num) (by norm_num) (by norm_num) (by norm_num) (by norm_num) e3
  simpa using e4

/-- Every run of the horizontal step loop consumes exactly the (positive part
of the) displacement, in chunks that are each positive and at most `5`. -/
theorem hLoop_steps_props (distance pos : ℚ) (direction : Int) (lo hi : ℚ) :
    (hLoop distance pos direction lo hi).steps.sum = max distance 0
    ∧ ∀ m ∈ (hLoop distance pos direction lo hi).steps, 0 < m ∧ m ≤ 5 := by
  induction distance, pos, direction, lo, hi using hLoop.induct with
  | case1 distance pos direction lo hi h move_by pos1 hin ih =>
    rw [hLoop_step_in distance pos direction lo hi move_by (distance - move_by)
      pos1 _ h rfl rfl rfl hin rfl]
    have hmb_le : move_by ≤ distance := min_le_left _ _
    have hmb_pos : 0 < move_by := lt_min h (by norm_num)
    constructor
    · simp only [List.sum_cons, ih.1]
      rw [max_eq_left (by linarith), max_eq_left (le_of_lt h)]
      ring
    · intro m hm
      rcases List.mem_cons.mp hm with hm | hm
      · exact hm ▸ ⟨hmb_pos, min_le_right _ _⟩
      · exact ih.2 m hm
  | case2 distance pos direction lo hi h move_by pos1 hout ih =>
    rw [hLoop_step_out distance pos direction lo hi move_by (distance - move_by)
      pos1 _ h rfl rfl rfl hout rfl]
    have hmb_le : move_by ≤ distance := min_le_left _ _
    have hmb_pos : 0 < move_by := lt_min h (by norm_num)
    constructor
    · simp only [List.sum_cons, ih.1]
      rw [max_eq_left (by linarith), max_eq_left (le_of_lt h)]
      ring
    · intro m hm
      rcases List.mem_cons.mp hm with hm | hm
      · exact hm ▸ ⟨hmb_pos, min_le_right _ _⟩
      · exact ih.2 m hm
  | case3 distance pos direction lo hi h =>
    rw [hLoop_base distance pos direction lo hi h]
    exact ⟨by simp [max_eq_right (le_of_not_lt h)], by simp⟩

/-- Claim C3: during one horizontal `advance` on a moving state the
displacement is consumed in steps of `min(5, remaining)` (each step positive,
at most `5`, and the steps sum to the whole positive displacement); after
each step a position outside `[lo, hi]` flips the direction sign, so a
single `advance` can reverse direction several times (here three times for a
displacement of `18.5` in the bound `[0, 4]`), and the flipped direction is
written back to the state for subsequent calls. -/
theorem horizontal_step_bounce_spec :
    (∀ distance pos : ℚ, ∀ direction : Int, ∀ lo hi : ℚ,
      (hLoop distance pos direction lo hi).steps.sum = max distance 0
      ∧ ∀ m ∈ (hLoop distance pos direction lo hi).steps, 0 < m ∧ m ≤ 5)
    ∧ (∀ s : HorizontalState, ∀ dir : Int, ∀ now p lo hi : ℚ,
        s.play = some dir → elapsed now s.start < s.duration →
        (s.mv now p lo hi).1.play = some
          (hLoop (calculate_distance
              (s.velocity_at (min (elapsed now s.start) s.duration))
              (-s.acceleration) (min (elapsed now s.start) s.duration))
            p dir lo hi).direction)
    ∧ (hLoop (37/2) 1 1 0 4).flips = 3
    ∧ ((⟨some 1, 0, 20, 20, 1⟩ : HorizontalState).mv 1 1 0 4).1.play =
        some (-1) := by
  refine ⟨hLoop_steps_props, ?_, by rw [hLoop_narrow_demo], ?_⟩
  · intro s dir now p lo hi h hlt
    simp only [HorizontalState.mv, h, HorizontalState.distance_at,
      HorizontalState.velocity_at, calculate_distance, calculate_velocity,
      if_pos hlt, HorizontalState.startPlay]
  · have hd : calculate_distance
        ((⟨some 1, 0, 20, 20, 1⟩ : HorizontalState).velocity_at
          (min (elapsed 1 0) 20))
        (-(⟨some 1, 0, 20, 20, 1⟩ : HorizontalState).acceleration)
        (min (elapsed 1 0) 20) = 37/2 := by
      norm_num [HorizontalState.velocity_at, calculate_velocity,
        calculate_distance, elapsed]
    simp only [HorizontalState.mv, HorizontalState.distance_at,
      HorizontalState.velocity_at]
    norm_num [elapsed, calculate_velocity, calculate_distance,
      hLoop_narrow_demo, HorizontalState.startPlay]

/-- Witness for `horizontal_step_bounce_spec`: the moving state with
`velocity = 20`, `deceleration = 1` advanced one second in the bound
`[0, 4]` retains the (three-times) flipped direction, and a displacement of
`7` is consumed fully in steps `5, 2`. -/
theorem horizontal_step_bounce_spec_witness :
    ((⟨some 1, 0, 20, 20, 1⟩ : HorizontalState).mv 1 1 0 4).1.play =
      some (hLoop (calculate_distance
          ((⟨some 1, 0, 20, 20, 1⟩ : HorizontalState).velocity_at
            (min (elapsed 1 0) 20))
          (-(⟨some 1, 0, 20, 20, 1⟩ : HorizontalState).acceleration)
          (min (elapsed 1 0) 20)) 1 1 0 4).direction
    ∧ (hLoop 7 0 1 0 1000).steps.sum = max 7 0 := by
  refine ⟨?_, (horizontal_step_bounce_spec.1 7 0 1 0 1000).1⟩
  exact horizontal_step_bounce_spec.2.1 ⟨some 1, 0, 20, 20, 1⟩ 1 1 1 0 4 rfl
    (by norm_num [elapsed])

/-- Every chunk consumed by the vertical step loop is at most `5` as a
*signed* value (`min distance 5` bounds it above, not in absolute value). -/
theorem vLoop_steps_le (distance pos direction velocity : ℚ) :
    ∀ m ∈ (vLoop distance pos direction velocity).steps, m ≤ 5 := by
  induction distance, pos, direction, velocity using vLoop.induct with
  | case1 distance pos direction velocity h move_by pos1 hb =>
    rw [vLoop_bounce distance pos direction velocity move_by pos1 h rfl rfl hb]
    intro m hm
    rw [List.mem_singleton.mp hm]
    exact min_le_right _ _
  | case2 distance pos direction velocity h move_by pos1 hnb ih =>
    rw [vLoop_step distance pos direction velocity move_by (distance - move_by)
      pos1 _ h rfl rfl rfl hnb rfl]
    intro m hm
    rcases List.mem_cons.mp hm with hm | hm
    · exact hm ▸ min_le_right _ _
    · exact ih m hm
  | case3 distance pos direction velocity h =>
    have h0 : distance = 0 := not_not.mp h
    subst h0
    rw [vLoop_base]
    simp

/-- A negative frame displacement is consumed by the vertical step loop in a
single step equal to the whole displacement (whose magnitude is unbounded). -/
theorem vLoop_neg_single (distance pos direction velocity : ℚ)
    (h : distance < 0) :
    (vLoop distance pos direction velocity).steps = [distance] := by
  have hne : distance ≠ 0 := ne_of_lt h
  have hm : min distance 5 = distance := min_eq_left (by linarith)
  by_cases hb : pos - distance * direction ≤ 0
  · rw [vLoop_bounce distance pos direction velocity distance
      (pos - distance * direction) hne hm rfl hb]
  · rw [vLoop_step distance pos direction velocity distance 0
      (pos - distance * direction) _ hne hm (sub_self distance) rfl hb
      (vLoop_base _ _ _)]

/-- Claim C7 counterexample: the first `advance` of a fresh fall from height
`100`, one second after `fall()`, computes the frame displacement `-1200`
(negative: falling), and the step loop consumes it in a *single* step of
magnitude `1200 > 5`; the position moves from `100` to `-1100` in that one
step.  `min(distance, 5.0)` caps steps at `5` only from above, so the claimed
bound "each step magnitude at most 5.0" fails for every falling frame with
more than `5` units of displacement. -/
theorem vertical_step_size_cex :
    ((VerticalState.fall (VerticalState.init 0) 0).mv 1 100).2 = -1100
    ∧ (vLoop (-1200) 100 (-1) (-800)).steps = [-1200]
    ∧ ∃ m ∈ (vLoop (-1200) 100 (-1) (-800)).steps, 5 < |m| := by
  have hL := vLoop_bounce (-1200) 100 (-1) (-800) (-1200) (-1100)
    (by norm_num) (by norm_num) (by norm_num) (by norm_num)
  refine ⟨?_, by rw [hL], ⟨-1200, by rw [hL]; simp, by norm_num⟩⟩
  simp only [VerticalState.mv, VerticalState.fall, VerticalState.init]
  norm_num [elapsed, calculate_velocity, calculate_distance, hL]

/-- Claim C7 amended: the vertical step loop consumes the frame displacement
in steps of `min(distance, 5.0)`, i.e. each step is at most `5.0` as a
*signed* quantity; a positive displacement is chunked into steps of at most
`5.0`, but a negative displacement (the falling case) is consumed in a single
step equal to the whole displacement, whose magnitude is unbounded.  Each
step changes the position by `-(step * direction)`. -/
theorem vertical_step_size_amended (distance pos direction velocity : ℚ) :
    (∀ m ∈ (vLoop distance pos direction velocity).steps, m ≤ 5)
    ∧ (distance < 0 → (vLoop distance pos direction velocity).steps = [distance]) :=
  ⟨vLoop_steps_le distance pos direction velocity,
   fun h => vLoop_neg_single distance pos direction velocity h⟩

/-- Witness for `vertical_step_size_amended` at displacement `-7`. -/
theorem vertical_step_size_amended_witness :
    (∀ m ∈ (vLoop (-7) 3 (-1) 0).steps, m ≤ 5)
    ∧ (vLoop (-7) 3 (-1) 0).steps = [-7] :=
  ⟨(vertical_step_size_amended (-7) 3 (-1) 0).1,
   (vertical_step_size_amended (-7) 3 (-1) 0).2 (by norm_num)⟩

/-- Claim C4 counterexample: a bounce with *positive* pre-bounce velocity.
The state is the natural configuration just before a second bounce
(`direction = +1` after the first bounce, ball descending past the apex,
stored velocity `80`); after `0.1 s` the updated velocity is
`calculate_velocity 80 (800 * 1) (1/10) = 160`, the frame displacement is
`20`, and the first `5`-step drives the position from `4` to `-1 ≤ 0`,
triggering the bounce.  The code stores `0.8 * 160 = 128` (sign preserved),
not `-(0.8 * |160|) = -128` as the claim's "0.8 times the pre-bounce
magnitude with sign flipped" demands. -/
theorem vertical_bounce_sign_cex :
    ((⟨true, 0, 1, 800, 80⟩ : VerticalState).mv (1/10) 4).1.velocity = 128
    ∧ ((⟨true, 0, 1, 800, 80⟩ : VerticalState).mv (1/10) 4).1.direction = -1
    ∧ calculate_velocity 80 (800 * 1) (1/10) = 160
    ∧ ¬ ((128 : ℚ) = -((8/10) * |(160 : ℚ)|)) := by
  have hL := vLoop_bounce 20 4 1 160 5 (-1)
    (by norm_num) (by norm_num) (by norm_num) (by norm_num)
  refine ⟨?_, ?_, by norm_num [calculate_velocity], by norm_num⟩ <;>
  · simp only [VerticalState.mv]
    norm_num [elapsed, calculate_velocity, calculate_distance, hL]

/-- Claim C4 amended: when a step of the vertical loop brings the position to
`≤ 0`, the loop flips `direction`'s sign, scales the stored velocity by `0.8`
*preserving its sign*, and breaks immediately (the result records exactly one
consumed step, the rest of the displacement is discarded).  For the canonical
falling case of nonpositive pre-bounce velocity, `0.8 * velocity` coincides
with the claimed "0.8 times the pre-bounce magnitude with sign flipped". -/
theorem vertical_bounce_amended (distance pos direction velocity : ℚ)
    (h : distance ≠ 0) (hb : pos - min distance 5 * direction ≤ 0) :
    vLoop distance pos direction velocity =
      ⟨pos - min distance 5 * direction, direction * (-1), velocity * (8/10),
       [min distance 5]⟩
    ∧ (velocity ≤ 0 → velocity * (8/10) = -((8/10) * |velocity|)) := by
  refine ⟨vLoop_bounce _ _ _ _ _ _ h rfl rfl hb, fun hv => ?_⟩
  rw [abs_of_nonpos hv]
  ring

/-- Witness for `vertical_bounce_amended`: a falling bounce with pre-bounce
velocity `-160`. -/
theorem vertical_bounce_amended_witness :
    vLoop 20 4 1 (-160) =
      ⟨4 - min 20 5 * 1, 1 * (-1), -160 * (8/10), [min 20 5]⟩
    ∧ ((-160 : ℚ) * (8/10) = -((8/10) * |(-160 : ℚ)|)) :=
  ⟨(vertical_bounce_amended 20 4 1 (-160) (by norm_num) (by norm_num)).1,
   (vertical_bounce_amended 20 4 1 (-160) (by norm_num) (by norm_num)).2
     (by norm_num)⟩

/-- Claim C5: on a playing vertical state, `advance` clears `playing` iff
the frame displacement (computed before the step loop consumes it) is at
most `0.5` in absolute value *and* the resulting position is at most `0.5`
in absolute value; otherwise `playing` stays `true`. -/
theorem vertical_settle_iff (s : VerticalState) (now pos : ℚ)
    (h : s.play = true) :
    ((s.mv now pos).1.play = false ↔
      |calculate_distance
          (calculate_velocity s.velocity (s.accel * s.direction)
            (elapsed now s.start))
          (s.accel * s.direction) (elapsed now s.start)| ≤ 1/2
      ∧ |(s.mv now pos).2| ≤ 1/2) := by
  simp only [VerticalState.mv, h, if_true]
  split_ifs with hc
  · exact iff_of_true rfl hc
  · exact iff_of_false (by simp [h]) hc

/-- A settling `advance`: displacement `0`, position `3/10`, both within the
`0.5` thresholds, so `playing` is cleared. -/
theorem settle_demo :
    (⟨true, 0, -1, 800, 0⟩ : VerticalState).mv 0 (3/10) =
      (⟨false, 0, -1, 800, 0⟩, 3/10) := by
  simp only [VerticalState.mv]
  norm_num [elapsed, calculate_velocity, calculate_distance, vLoop_base, abs_le]

/-- Witness for `vertical_settle_iff`: the settling `advance` of
`settle_demo`. -/
theorem vertical_settle_iff_witness :
    ((⟨true, 0, -1, 800, 0⟩ : VerticalState).mv 0 (3/10)).1.play = false := by
  refine (vertical_settle_iff ⟨true, 0, -1, 800, 0⟩ 0 (3/10) rfl).mpr
    ⟨by norm_num [calculate_velocity, calculate_distance, elapsed], ?_⟩
  rw [settle_demo]
  rw [abs_le]
  norm_num

/-- First `advance` of a fresh fall from height `100`, one second after
`fall()`: updated velocity `-800`, frame displacement `-1200`, single-step
crossing of the floor to `-1100`, bounce to `direction = +1`,
`velocity = -640`; still playing. -/
theorem fall_first_frame :
    (VerticalState.fall (VerticalState.init 0) 0).mv 1 100 =
      (⟨true, 1, 1, 800, -640⟩, -1100) := by
  have hL := vLoop_bounce (-1200) 100 (-1) (-800) (-1200) (-1100)
    (by norm_num) (by norm_num) (by norm_num) (by norm_num)
  simp only [VerticalState.mv, VerticalState.fall, VerticalState.init]
  norm_num [elapsed, calculate_velocity, calculate_distance, hL]

/-- Claim C6 counterexample: the invariant "`playing == false` implies at
rest at the floor" fails for reachable states.  From a fresh state at
position `100`: `fall()`, one `advance` after one second (ball bounces to
position `-1100` with stored velocity `-640`, still playing), then `stop()`.
The resulting reachable state has `playing = false` with `|position| = 1100`
and `|velocity| = 640`, far above any small epsilon. -/
theorem vertical_rest_invariant_cex :
    VReach ((⟨true, 1, 1, 800, -640⟩ : VerticalState).stop) (-1100)
    ∧ ((⟨true, 1, 1, 800, -640⟩ : VerticalState).stop).play = false
    ∧ ¬ (|(-1100 : ℚ)| ≤ 1/2)
    ∧ ¬ (|((⟨true, 1, 1, 800, -640⟩ : VerticalState).stop).velocity| ≤ 1/2) := by
  refine ⟨?_, rfl, by norm_num, by norm_num [VerticalState.stop]⟩
  have h1 := VReach.mv (VerticalState.fall (VerticalState.init 0) 0) 100 1
    (VReach.fall (VerticalState.init 0) 100 0 (VReach.init 0 100))
  rw [fall_first_frame] at h1
  exact VReach.stop _ _ h1

/-- Claim C6 amended: the at-rest guarantee holds only for the settle
transition of `advance` itself: whenever `advance` on a playing state clears
`playing`, the resulting position and the frame displacement are both within
`0.5` in absolute value.  `stop()` (and a freshly constructed state) leave
`playing = false` with arbitrary position and velocity, so the claimed
invariant over all reachable states fails. -/
theorem vertical_settle_rest_amended (s : VerticalState) (now pos : ℚ)
    (hp : s.play = true) (hs : (s.mv now pos).1.play = false) :
    |(s.mv now pos).2| ≤ 1/2
    ∧ |calculate_distance
        (calculate_velocity s.velocity (s.accel * s.direction)
          (elapsed now s.start))
        (s.accel * s.direction) (elapsed now s.start)| ≤ 1/2 := by
  simp only [VerticalState.mv, hp, if_true] at hs ⊢
  split_ifs at hs ⊢ with hc
  exact ⟨hc.2, hc.1⟩

/-- Witness for `vertical_settle_rest_amended`: the settling `advance` of
`settle_demo`. -/
theorem vertical_settle_rest_amended_witness :
    |((⟨true, 0, -1, 800, 0⟩ : VerticalState).mv 0 (3/10)).2| ≤ 1/2
    ∧ |calculate_distance
        (calculate_velocity 0 (800 * -1) (elapsed 0 0))
        (800 * -1) (elapsed 0 0)| ≤ 1/2 :=
  vertical_settle_rest_amended ⟨true, 0, -1, 800, 0⟩ 0 (3/10) rfl
    (by rw [settle_demo])

/-! ### A concrete bounce trajectory (used to refute the `direction`
sign convention of claim C9).

Falling from height `299`: the first frame (at `t = 0.5 s`) bounces to
`direction = +1`; four further `0.1 s` frames then ride the rise to the apex
and past it: in the last frame the updated velocity is `0` but the frame
displacement is `+4 > 0`, so the position *decreases* (the ball falls) while
`direction` is still `+1`. -/

theorem fall_towards_floor_frame :
    (VerticalState.fall (VerticalState.init 0) 0).mv (1/2) 299 =
      (⟨true, 1/2, 1, 800, -320⟩, -1) := by
  have hL := vLoop_bounce (-300) 299 (-1) (-400) (-300) (-1)
    (by norm_num) (by norm_num) (by norm_num) (by norm_num)
  simp only [VerticalState.mv, VerticalState.fall, VerticalState.init]
  norm_num [elapsed, calculate_velocity, calculate_distance, hL, abs_le]

theorem rise_frame_1 :
    (⟨true, 1/2, 1, 800, -320⟩ : VerticalState).mv (3/5) (-1) =
      (⟨true, 3/5, 1, 800, -240⟩, 19) := by
  have hL := vLoop_step (-20) (-1) 1 (-240) (-20) 0 19 _
    (by norm_num) (by norm_num) (by norm_num) (by norm_num) (by norm_num)
    (vLoop_base 19 1 (-240))
  simp only [VerticalState.mv]
  norm_num [elapsed, calculate_velocity, calculate_distance, hL, abs_le]

theorem rise_frame_2 :
    (⟨true, 3/5, 1, 800, -240⟩ : VerticalState).mv (7/10) 19 =
      (⟨true, 7/10, 1, 800, -160⟩, 31) := by
  have hL := vLoop_step (-12) 19 1 (-160) (-12) 0 31 _
    (by norm_num) (by norm_num) (by norm_num) (by norm_num) (by norm_num)
    (vLoop_base 31 1 (-160))
  simp only [VerticalState.mv]
  norm_num [elapsed, calculate_velocity, calculate_distance, hL, abs_le]

theorem rise_frame_3 :
    (⟨true, 7/10, 1, 800, -160⟩ : VerticalState).mv (4/5) 31 =
      (⟨true, 4/5, 1, 800, -80⟩, 35) := by
  have hL := vLoop_step (-4) 31 1 (-80) (-4) 0 35 _
    (by norm_num) (by norm_num) (by norm_num) (by norm_num) (by norm_num)
    (vLoop_base 35 1 (-80))
  simp only [VerticalState.mv]
  norm_num [elapsed, calculate_velocity, calculate_distance, hL, abs_le]

theorem past_apex_frame :
    (⟨true, 4/5, 1, 800, -80⟩ : VerticalState).mv (9/10) 35 =
      (⟨true, 9/10, 1, 800, 0⟩, 31) := by
  have hL := vLoop_step 4 35 1 0 4 0 31 _
    (by norm_num) (by norm_num) (by norm_num) (by norm_num) (by norm_num)
    (vLoop_base 31 1 0)
  simp only [VerticalState.mv]
  norm_num [elapsed, calculate_velocity, calculate_distance, hL, abs_le]

/-- Claim C9 counterexample: a reachable playing state (reached from a fresh
fall at height `299` through one bounce and three rise frames) whose next
`advance` moves the position *down* (from `35` to `31`: the ball is falling,
past the apex) while `is_dropping()` returns `false` and `direction` is
still `+1.0`.  So `is_dropping()` does not track "the object is falling",
and `direction` is not `-1.0` while falling: `direction` only records bounce
parity, flipping at bounces. -/
theorem is_drop_convention_cex :
    VReach (⟨true, 4/5, 1, 800, -80⟩ : VerticalState) 35
    ∧ (⟨true, 4/5, 1, 800, -80⟩ : VerticalState).play = true
    ∧ (⟨true, 4/5, 1, 800, -80⟩ : VerticalState).is_drop = false
    ∧ ((⟨true, 4/5, 1, 800, -80⟩ : VerticalState).mv (9/10) 35).2 < 35 := by
  refine ⟨?_, rfl, by simp [VerticalState.is_drop], ?_⟩
  · have r1 := VReach.fall (VerticalState.init 0) 299 0 (VReach.init 0 299)
    have r2 := VReach.mv (VerticalState.fall (VerticalState.init 0) 0) 299
      (1/2) r1
    rw [fall_towards_floor_frame] at r2
    have r3 := VReach.mv (⟨true, 1/2, 1, 800, -320⟩ : VerticalState) (-1)
      (3/5) r2
    rw [rise_frame_1] at r3
    have r4 := VReach.mv (⟨true, 3/5, 1, 800, -240⟩ : VerticalState) 19
      (7/10) r3
    rw [rise_frame_2] at r4
    have r5 := VReach.mv (⟨true, 7/10, 1, 800, -160⟩ : VerticalState) 31
      (4/5) r4
    rw [rise_frame_3] at r5
    exact r5
  · rw [past_apex_frame]
    norm_num

/-- Claim C9 amended: `is_dropping()` reports exactly the sign of the
`direction` field; `fall()` initializes `direction = -1.0`, and the only
mutation of `direction` afterwards is the sign flip performed by a bounce
of the step loop — so `direction` records bounce parity, not the
instantaneous direction of travel (after the apex the ball falls with
`direction = +1.0`, where `is_dropping()` is `false`). -/
theorem is_drop_amended :
    (∀ s : VerticalState, s.is_drop = true ↔ s.direction < 0)
    ∧ (∀ s : VerticalState, ∀ now : ℚ,
        (s.fall now).is_drop = true ∧ (s.fall now).direction = -1)
    ∧ (∀ distance pos direction velocity : ℚ, distance ≠ 0 →
        pos - min distance 5 * direction ≤ 0 →
        (vLoop distance pos direction velocity).direction = direction * (-1)) := by
  refine ⟨fun s => by simp [VerticalState.is_drop],
    fun s now => ⟨by simp [VerticalState.is_drop, VerticalState.fall], rfl⟩,
    fun d p dir v h hb => ?_⟩
  rw [vLoop_bounce d p dir v _ _ h rfl rfl hb]

/-- Witness for `is_drop_amended`: the bounce of `vertical_bounce_sign_cex`
flips `direction` from `+1` to `-1`. -/
theorem is_drop_amended_witness :
    (vLoop 20 4 1 160).direction = 1 * (-1) :=
  is_drop_amended.2.2 20 4 1 160 (by norm_num) (by norm_num)

end GLBB

